import Mathlib

/-!
Verification of the LLMRace proxy backend (`proxy/app`), as a shallow
embedding in Lean 4.  Python functions are translated into executable Lean
definitions; database state is modelled as explicit lists of rows; machine
integers are `Int`/`Nat`; fallible code returns `Option`/`Except`.
Floating-point arithmetic is idealized over `ℚ`; places where the
idealization matters are pointed out in the doc comments.
-/

namespace LLMRace

/-! ### Shared helpers for Python string semantics -/

/-- The left brace character (written by code point to keep string literals plain). -/
def lbraceChar : Char := Char.ofNat 123

/-- The right brace character. -/
def rbraceChar : Char := Char.ofNat 125

/-- The left brace as a one-character string. -/
def lbrace : String := String.singleton lbraceChar

/-- The right brace as a one-character string. -/
def rbrace : String := String.singleton rbraceChar

/-- `"{}"`, the default arguments document. -/
def emptyObjText : String := lbrace ++ rbrace

/-- Drop whitespace from both ends of a character list. -/
def stripChars (cs : List Char) : List Char :=
  ((cs.dropWhile Char.isWhitespace).reverse.dropWhile Char.isWhitespace).reverse

/-- Python `str.strip()` (whitespace at both ends).  Unicode whitespace beyond
ASCII is not modelled. -/
def pyStrip (s : String) : String := String.mk (stripChars s.toList)

/-- Split a character list at every separator character (separators are not
kept; adjacent separators yield empty pieces, like Python `re.split` before
empty pieces are filtered out). -/
def splitListAux (p : Char → Bool) : List Char → List Char → List (List Char)
  | [], cur => [cur.reverse]
  | c :: cs, cur =>
    if p c then cur.reverse :: splitListAux p cs []
    else splitListAux p cs (c :: cur)

/-- Split a string at every character satisfying `p`. -/
def pySplit (s : String) (p : Char → Bool) : List String :=
  (splitListAux p s.toList []).map String.mk

/-- Python `str.split()` with no argument: split on whitespace runs and drop
empty pieces. -/
def pyWords (text : String) : List String :=
  (pySplit text Char.isWhitespace).filter (fun w => w ≠ "")

/-- Valid tail of a Python integer literal body after its first digit:
digits, with single underscores allowed only between digits. -/
def goodIntRest : List Char → Bool
  | [] => true
  | c :: rest =>
    if c = '_' then
      match rest with
      | d :: rest2 => d.isDigit && goodIntRest rest2
      | [] => false
    else c.isDigit && goodIntRest rest

/-- Valid Python integer literal body: at least one digit, single underscores
only between digits. -/
def goodIntDigits (cs : List Char) : Bool :=
  match cs with
  | [] => false
  | c :: rest => c.isDigit && goodIntRest rest

/-- Decimal value of a digit list. -/
def digitsVal (cs : List Char) : Nat :=
  cs.foldl (fun a c => a * 10 + (c.toNat - 48)) 0

/-- Python `int(s)` on a string: strip whitespace, optional sign, decimal
digits with optional single underscores.  `none` models `ValueError`. -/
def pyParseInt (s : String) : Option Int :=
  let cs := (pyStrip s).toList
  match cs with
  | [] => none
  | c :: rest =>
    if c = '-' then
      if goodIntDigits rest then some (-(digitsVal (rest.filter (fun x => x ≠ '_')) : Int)) else none
    else if c = '+' then
      if goodIntDigits rest then some ((digitsVal (rest.filter (fun x => x ≠ '_')) : Int)) else none
    else
      if goodIntDigits cs then some ((digitsVal (cs.filter (fun x => x ≠ '_')) : Int)) else none

/-! ### C1 — provider mode selection (`app/providers/normalize.py`,
`app/providers/adapters.py`) -/

/-- `ConnectionType` enum from `app/db/models.py`. -/
inductive ConnectionType
  | OLLAMA
  | OPENAI
  | ANTHROPIC
  | OPENROUTER
  | OPENAI_COMPAT
  | LLAMACPP_OPENAI
  | CUSTOM
deriving DecidableEq, Repr

/-- `provider_mode` from `app/providers/normalize.py`: OLLAMA maps to
`"ollama"`, everything else falls through to `"openai_compat"`.  (There is no
ANTHROPIC branch in the source.) -/
def provider_mode (connection_type : ConnectionType) : String :=
  if connection_type = ConnectionType.OLLAMA then "ollama" else "openai_compat"

/-- The dispatch performed by `ProviderClient.generate`
(`app/providers/adapters.py`): the name of the wire-protocol adapter method
chosen for a connection type.  The `"anthropic"` test mirrors the dead branch
in the source. -/
def generateAdapter (t : ConnectionType) : String :=
  let mode := provider_mode t
  if mode = "ollama" then "_generate_ollama"
  else if mode = "anthropic" then "_generate_anthropic"
  else "_generate_openai_compat"

/-! ### C3 — run finalization (`app/runs/executor.py`, `_execute_run` tail) -/

/-- `RunStatus` enum from `app/db/models.py`. -/
inductive RunStatus
  | QUEUED
  | RUNNING
  | COMPLETED
  | FAILED
deriving DecidableEq, Repr

/-- `RunItemStatus` enum from `app/db/models.py`. -/
inductive RunItemStatus
  | PENDING
  | RUNNING
  | COMPLETED
  | FAILED
  | PARTIAL_TOOL_SUPPORT
deriving DecidableEq, Repr

/-- String value of a `RunStatus` (Python `status.value`). -/
def RunStatus.value : RunStatus → String
  | .QUEUED => "QUEUED"
  | .RUNNING => "RUNNING"
  | .COMPLETED => "COMPLETED"
  | .FAILED => "FAILED"

/-- Result of the finalization block at the end of
`RaceExecutor._execute_run`: the run status written, whether `finished_at`
was set, and the telemetry event emitted. -/
structure RunFinalization where
  status : RunStatus
  finished_at_set : Bool
  emitted_event : String
  emitted_status : String
deriving DecidableEq, Repr

/-- The tail of `RaceExecutor._execute_run` (lines 137-151): count the run's
items and its FAILED items, set `status = FAILED` iff `total_items > 0` and
`failed_items == total_items`, else `COMPLETED`; set `finished_at` and emit
`run.completed`. -/
def finalize_run (items : List RunItemStatus) : RunFinalization :=
  let total_items := items.length
  let failed_items := (items.filter (fun s => s = RunItemStatus.FAILED)).length
  let status :=
    if total_items > 0 ∧ failed_items = total_items then RunStatus.FAILED
    else RunStatus.COMPLETED
  { status := status
    finished_at_set := true
    emitted_event := "run.completed"
    emitted_status := status.value }

/-! ### C4 — metrics (`app/runs/metrics.py`) -/

/-- `MetricComputation` dataclass from `app/runs/metrics.py`.
`tokens_per_sec` is a Python float, idealized as `ℚ`. -/
structure MetricComputation where
  ttft_ms : Option Int
  total_latency_ms : Int
  generation_ms : Option Int
  output_tokens : Int
  output_tokens_estimated : Bool
  tokens_per_sec : Option ℚ
deriving DecidableEq, Repr

/-- `estimate_tokens` from `app/runs/metrics.py`:
`max(1, int(len(text.split()) * 1.25))`.  `n * 1.25` is exact in binary
floating point for realistic word counts and `int()` truncates the
nonnegative product, so it equals `n * 5 / 4` in integer division. -/
def estimate_tokens (text : String) : Int :=
  max 1 (Int.ofNat ((pyWords text).length * 5 / 4))

/-- `compute_metrics` from `app/runs/metrics.py`, translated clause by
clause. -/
def compute_metrics (started_ms finished_ms : Int) (ttft_ms : Option Int)
    (output_text : String) (usage_completion_tokens : Option Int)
    (usage_estimated : Bool) : MetricComputation :=
  let total_latency_ms := max 0 (finished_ms - started_ms)
  let generation_ms : Option Int :=
    match ttft_ms with
    | some t => some (max 1 (total_latency_ms - t))
    | none => none
  let output_tokens : Int :=
    match usage_completion_tokens with
    | none => estimate_tokens output_text
    | some u => max 1 u
  let output_tokens_estimated : Bool :=
    match usage_completion_tokens with
    | none => true
    | some _ => usage_estimated
  let tokens_per_sec : Option ℚ :=
    match generation_ms with
    | some g => if g ≠ 0 ∧ g > 0 then some ((output_tokens : ℚ) / ((g : ℚ) / 1000)) else none
    | none => none
  { ttft_ms := ttft_ms
    total_latency_ms := total_latency_ms
    generation_ms := generation_ms
    output_tokens := output_tokens
    output_tokens_estimated := output_tokens_estimated
    tokens_per_sec := tokens_per_sec }

/-! ### C6 — subscriber stream starting cursor (`app/api/runs.py`,
`stream_run`) -/

/-- Python `x or 0` on an `int`: `0` is falsy, which maps `0` to `0`, so this
is the identity on integers; kept to mirror `current_seq = start_after or 0`. -/
def pyOrZero (x : Int) : Int := if x = 0 then 0 else x

/-- The starting-cursor computation of `stream_run` (`app/api/runs.py`):
`start_after = after_seq`; when that is `None`, try
`int(last_event_id) if last_event_id else 0` with `ValueError` mapped to 0;
the generator then starts from `start_after or 0`.  `after_seq` is declared
with `ge=0`, so FastAPI rejects negative query values before this code runs. -/
def stream_start_cursor (after_seq : Option Int) (last_event_id : Option String) : Int :=
  let start_after : Int :=
    match after_seq with
    | some v => v
    | none =>
      match last_event_id with
      | none => 0
      | some s => if s = "" then 0 else (pyParseInt s).getD 0
  pyOrZero start_after

/-- The cursor rule as the spec words it ("the maximum of: `after_seq` query
parameter, integer-parsed `Last-Event-ID` header, or 0", absent or
unparseable values counting as 0).  Used only to compare against the code. -/
def stream_start_cursor_specWords (after_seq : Option Int)
    (last_event_id : Option String) : Int :=
  max (max (after_seq.getD 0) ((last_event_id.bind pyParseInt).getD 0)) 0

/-! ### C7 — expected-constraint evaluator (`app/runs/assertions.py`) -/

/-- Python `str.lower()` (ASCII case folding; exotic unicode case rules are
not modelled). -/
def pyLower (s : String) : String := String.mk (s.toList.map Char.toLower)

/-- Split a character list at the first occurrence of `sep`
(Python `s.split(sep, 1)` when it succeeds); `none` when `sep` is absent. -/
def splitFirst (sep : Char) : List Char → Option (List Char × List Char)
  | [] => none
  | c :: rest =>
    if c = sep then some ([], rest)
    else
      match splitFirst sep rest with
      | none => none
      | some (a, b) => some (c :: a, b)

/-- Does `hay` start with `needle`? -/
def startsWithList (needle hay : List Char) : Bool :=
  match needle, hay with
  | [], _ => true
  | _ :: _, [] => false
  | n :: ns, h :: hs => n = h && startsWithList ns hs

/-- Python `needle in hay` on strings (substring containment). -/
def containsList (hay needle : List Char) : Bool :=
  startsWithList needle hay ||
    match hay with
    | [] => false
    | _ :: hs => containsList hs needle

/-- Python `needle in hay` for strings. -/
def pyContains (hay needle : String) : Bool := containsList hay.toList needle.toList

/-- Python `str(bool)` as used by f-strings. -/
def pyBoolRepr (b : Bool) : String := if b then "True" else "False"

/-- `_parse_constraints` from `app/runs/assertions.py`: split the raw text on
newlines and semicolons, strip, drop blanks, keep only chunks containing a
colon, and split each at its first colon into a lowercased stripped name and
a stripped value. -/
def _parse_constraints (raw_constraints : Option String) : List (String × String) :=
  match raw_constraints with
  | none => []
  | some r =>
    if r = "" then []
    else
      let chunks := ((pySplit r (fun c => c = '\n' || c = ';')).map pyStrip).filter
        (fun p => p ≠ "")
      chunks.filterMap (fun chunk =>
        match splitFirst ':' chunk.toList with
        | none => none
        | some (n, v) => some (pyLower (pyStrip (String.mk n)), pyStrip (String.mk v)))

/-- `_check_max_words` from `app/runs/assertions.py`: parse the limit with
`int(...)`;  on `ValueError` fail with the invalid-value detail, else compare
the output's word count against the limit. -/
def _check_max_words (expected output_text : String) : Bool × String :=
  match pyParseInt (pyStrip expected) with
  | none => (false, "invalid max_words value: " ++ expected)
  | some max_words =>
    let words := (pyWords output_text).length
    (decide ((words : Int) ≤ max_words),
      "words=" ++ toString words ++ ", limit=" ++ toString max_words)

/-- One row of the constraint-evaluation result. -/
structure AssertionRow where
  type : String
  expected : String
  passed : Bool
  detail : String
deriving DecidableEq, Repr, Inhabited

/-- The summary returned by `evaluate_expected_constraints`. -/
structure AssertionSummary where
  total : Nat
  passed : Nat
  results : List AssertionRow
deriving DecidableEq, Repr

/-- The body of the per-check loop of `evaluate_expected_constraints`.
`regexSearch` abstracts `re.search(expected, output_text, re.MULTILINE)`,
whose engine is not modelled. -/
def constraintRow (regexSearch : String → String → Bool) (output_text : String)
    (ce : String × String) : AssertionRow :=
  let check_type := ce.1
  let expected := ce.2
  if check_type = "contains" then
    let p := pyContains output_text expected
    { type := check_type, expected := expected, passed := p,
      detail := "contains=" ++ pyBoolRepr p }
  else if check_type = "icontains" then
    let p := pyContains (pyLower output_text) (pyLower expected)
    { type := check_type, expected := expected, passed := p,
      detail := "icontains=" ++ pyBoolRepr p }
  else if check_type = "not_contains" then
    let p := !(pyContains output_text expected)
    { type := check_type, expected := expected, passed := p,
      detail := "not_contains=" ++ pyBoolRepr p }
  else if check_type = "regex" then
    let p := regexSearch expected output_text
    { type := check_type, expected := expected, passed := p,
      detail := "regex_match=" ++ pyBoolRepr p }
  else if check_type = "max_words" then
    let r := _check_max_words expected output_text
    { type := check_type, expected := expected, passed := r.1, detail := r.2 }
  else
    { type := check_type, expected := expected, passed := false,
      detail := "unsupported check: " ++ check_type }

/-- `evaluate_expected_constraints` from `app/runs/assertions.py`. -/
def evaluate_expected_constraints (regexSearch : String → String → Bool)
    (raw_constraints : Option String) (output_text : String) : AssertionSummary :=
  let checks := _parse_constraints raw_constraints
  if checks.isEmpty then { total := 0, passed := 0, results := [] }
  else
    let results := checks.map (constraintRow regexSearch output_text)
    { total := results.length
      passed := (results.filter (fun row => row.passed)).length
      results := results }

/-! ### C5 — calculator tool (`app/runs/tools.py`, `_safe_eval` /
`calculator`) -/

/-- The apostrophe character as a string (written by code point). -/
def apos : String := String.singleton (Char.ofNat 39)

/-- CPython's message for `float(complex)` (raised when `**` of a negative
base and a non-integral exponent yields a complex number and `_safe_eval`
wraps the result in `float(...)`). -/
def complexConvertMsg : String := "can" ++ apos ++ "t convert complex to float"

/-- Python `ast` binary operator kinds: the six in `_ALLOWED_BIN_OPS`, plus
one constructor standing for every other `ast` operator (FloorDiv, BitOr,
LShift, ...), which the source rejects by dictionary lookup. -/
inductive PyBinOp
  | add
  | sub
  | mult
  | div
  | pow
  | mod
  | otherBin
deriving DecidableEq, Repr

/-- Python `ast` unary operator kinds: the two in `_ALLOWED_UNARY_OPS` plus
every other unary operator (Not, Invert). -/
inductive PyUnaryOp
  | uadd
  | usub
  | otherUnary
deriving DecidableEq, Repr

/-- A parsed Python expression tree as `_safe_eval` observes it (the
`ast.Expression` wrapper is transparent).  `num` covers int and float
literals, idealized over `ℚ`; `boolLit` covers `True`/`False`, which pass
the source's `isinstance(value, (int, float))` test because Python `bool`
is an `int` subclass; `constOther` covers all other constants (strings,
`None`, ...); `otherNode` covers every non-constant, non-operator node
(names, calls, comparisons, ...). -/
inductive PyExpr
  | num (v : ℚ)
  | boolLit (b : Bool)
  | constOther
  | binOp (op : PyBinOp) (left right : PyExpr)
  | unaryOp (op : PyUnaryOp) (operand : PyExpr)
  | otherNode
deriving DecidableEq, Repr

/-- Membership in `_ALLOWED_BIN_OPS`. -/
def isAllowedBin : PyBinOp → Bool
  | .add | .sub | .mult | .div | .pow | .mod => true
  | .otherBin => false

/-- Membership in `_ALLOWED_UNARY_OPS`. -/
def isAllowedUnary : PyUnaryOp → Bool
  | .uadd | .usub => true
  | .otherUnary => false

/-- Python `float ** float`, idealized over `ℚ`: zero to a negative power
raises `ZeroDivisionError`; an integral exponent is exact; a negative base
with a non-integral exponent yields a complex number, which the source's
`float(...)` wrapper rejects; a nonnegative base with a non-integral
exponent yields an irrational float whose value this `ℚ` model does not
track (only the success of that case matters to the theorems below). -/
def pyPow (l r : ℚ) : Except String ℚ :=
  if l = 0 ∧ r < 0 then Except.error "0.0 cannot be raised to a negative power"
  else if r.den = 1 then Except.ok (l ^ r.num)
  else if l < 0 then Except.error complexConvertMsg
  else Except.ok 0

/-- Application of an allowed binary operator (`_ALLOWED_BIN_OPS[type(op)]`),
with Python's runtime arithmetic errors made explicit.  Python float `%` is
`l - r * floor(l / r)`. -/
def applyBin (op : PyBinOp) (l r : ℚ) : Except String ℚ :=
  match op with
  | .add => Except.ok (l + r)
  | .sub => Except.ok (l - r)
  | .mult => Except.ok (l * r)
  | .div => if r = 0 then Except.error "float division by zero" else Except.ok (l / r)
  | .pow => pyPow l r
  | .mod =>
    if r = 0 then Except.error "float modulo"
    else Except.ok (l - r * (⌊l / r⌋ : ℚ))
  | .otherBin => Except.error "Unsupported expression"

/-- Application of an allowed unary operator (`operator.pos` / `operator.neg`).
The `otherUnary` case is unreachable behind the `isAllowedUnary` guard. -/
def applyUnary (op : PyUnaryOp) (v : ℚ) : ℚ :=
  match op with
  | .uadd => v
  | .usub => -v
  | .otherUnary => v

/-- `_safe_eval` from `app/runs/tools.py`: constants that are ints or floats
(booleans included) evaluate to their float value; allowed binary and unary
operators recurse and apply; everything else raises
`ToolExecutionError("Unsupported expression")`.  `Except.error` carries the
exception message. -/
def _safe_eval : PyExpr → Except String ℚ
  | .num v => Except.ok v
  | .boolLit b => Except.ok (if b then 1 else 0)
  | .constOther => Except.error "Unsupported expression"
  | .binOp op l r =>
    if isAllowedBin op then
      match _safe_eval l with
      | Except.error e => Except.error e
      | Except.ok lv =>
        match _safe_eval r with
        | Except.error e => Except.error e
        | Except.ok rv => applyBin op lv rv
    else Except.error "Unsupported expression"
  | .unaryOp op e =>
    if isAllowedUnary op then
      match _safe_eval e with
      | Except.error e2 => Except.error e2
      | Except.ok v => Except.ok (applyUnary op v)
    else Except.error "Unsupported expression"
  | .otherNode => Except.error "Unsupported expression"

/-- `calculator` from `app/runs/tools.py`: parse (abstracted as the
`parse_result` argument, `Except.error` being a `SyntaxError` message) and
evaluate, re-raising every exception as
`ToolExecutionError(f"calculator failed: {exc}")`. -/
def calculator (parse_result : Except String PyExpr) : Except String ℚ :=
  match parse_result with
  | Except.error msg => Except.error ("calculator failed: " ++ msg)
  | Except.ok tree =>
    match _safe_eval tree with
    | Except.ok v => Except.ok v
    | Except.error msg => Except.error ("calculator failed: " ++ msg)

/-- An expression built only from numeric (or boolean) literals, allowed
unary operators, and allowed binary operators. -/
def numericForm : PyExpr → Bool
  | .num _ => true
  | .boolLit _ => true
  | .constOther => false
  | .binOp op l r => isAllowedBin op && (numericForm l && numericForm r)
  | .unaryOp op e => isAllowedUnary op && numericForm e
  | .otherNode => false

/-- The runtime arithmetic error messages `_safe_eval` can surface. -/
def arithErrMsg (m : String) : Prop :=
  m = "float division by zero" ∨ m = "float modulo" ∨
    m = "0.0 cannot be raised to a negative power" ∨ m = complexConvertMsg

/-! ### JSON documents (shared by C8, C9, C10) -/

/-- A JSON value as produced by Python `json.loads`.  Numbers are idealized
over `ℚ`; objects are insertion-ordered key/value lists (duplicate keys do
not survive `json.loads`, which keeps the last one). -/
inductive Json
  | null
  | bool (b : Bool)
  | num (v : ℚ)
  | str (s : String)
  | arr (items : List Json)
  | obj (fields : List (String × Json))

/-- Python `dict.get(key)` on a parsed JSON object. -/
def jGet (fields : List (String × Json)) (key : String) : Option Json :=
  (fields.find? (fun f => f.1 = key)).map (fun f => f.2)

/-- Does the string start with the given character? -/
def startsWithChar (s : String) (c : Char) : Bool :=
  match s.toList with
  | [] => false
  | x :: _ => x = c

/-- Does the string end with the given character? -/
def endsWithChar (s : String) (c : Char) : Bool :=
  match s.toList.getLast? with
  | none => false
  | some x => x = c

/-- `re.search(r"\x7b.*\x7d", text, re.DOTALL)` (same as
`r"\x7b[\s\S]*\x7d"`): the greedy match runs from the first left brace to
the last right brace; there is a match iff some right brace comes after the
first left brace. -/
def extractBraceSpan (text : String) : Option String :=
  let cs := text.toList
  match cs.findIdx? (fun c => c = lbraceChar) with
  | none => none
  | some i =>
    match cs.reverse.findIdx? (fun c => c = rbraceChar) with
    | none => none
    | some jr =>
      let j := cs.length - 1 - jr
      if i < j then some (String.mk ((cs.drop i).take (j - i + 1))) else none

/-! ### C10 — fallback tool-command parsing (`app/runs/tools.py`,
`parse_fallback_tool_command`) -/

/-- The final step of `parse_fallback_tool_command`: `payload.get("tool")`
must be a string and `payload.get("args", {})` must be a dict, else `None`;
on success the returned dict is `{"name": tool, "arguments": args}`. -/
def fallbackFinalize (fs : List (String × Json)) : Option Json :=
  match jGet fs "tool" with
  | some (Json.str t) =>
    match (jGet fs "args").getD (Json.obj []) with
    | Json.obj aFields =>
      some (Json.obj [("name", Json.str t), ("arguments", Json.obj aFields)])
    | _ => none
  | _ => none

/-- The payload-selection phase of `parse_fallback_tool_command`: if the
stripped text is brace-delimited, try `json.loads` on it and keep the result
when it is a dict; otherwise (or when that fails) extract the first-to-last
brace span and try again, returning `None` when there is no span, the parse
fails, or the value is not a dict.  `loads` abstracts `json.loads`
(`none` models `JSONDecodeError`). -/
def fallback_payload (loads : String → Option Json) (text : String) :
    Option (List (String × Json)) :=
  let stripped := pyStrip text
  let firstTry : Option (List (String × Json)) :=
    if startsWithChar stripped lbraceChar && endsWithChar stripped rbraceChar then
      match loads stripped with
      | some (Json.obj fs) => some fs
      | _ => none
    else none
  match firstTry with
  | some fs => some fs
  | none =>
    match extractBraceSpan text with
    | none => none
    | some sub =>
      match loads sub with
      | some (Json.obj fs) => some fs
      | _ => none

/-- `parse_fallback_tool_command` from `app/runs/tools.py`.  Total by
construction (the source catches every `JSONDecodeError` it can raise). -/
def parse_fallback_tool_command (loads : String → Option Json) (text : String) :
    Option Json :=
  (fallback_payload loads text).bind fallbackFinalize

/-! ### C9 — judge parsing (`app/runs/judge.py`, `app/api/runs.py`
`judge_run`) -/

/-- A validated `JudgePayload` (`app/runs/judge.py`), scores idealized over
`ℚ`. -/
structure JudgeScores where
  writing_score : ℚ
  coding_score : ℚ
  tool_score : ℚ
  overall : ℚ
  rationale : String
deriving DecidableEq, Repr

/-- Pydantic validation of one score field: a number in `[0, 10]`
(`Field(ge=0, le=10)`).  Pydantic's lax coercion of numeric strings is not
modelled. -/
def validScore (j : Json) : Option ℚ :=
  match j with
  | Json.num v => if 0 ≤ v ∧ v ≤ 10 then some v else none
  | _ => none

/-- `JudgePayload.model_validate`: an object whose four score fields are
numbers in `[0, 10]` and whose rationale is a string. -/
def judgeValidate (j : Json) : Option JudgeScores :=
  match j with
  | Json.obj fields =>
    match (jGet fields "writing_score").bind validScore with
    | none => none
    | some w =>
      match (jGet fields "coding_score").bind validScore with
      | none => none
      | some c =>
        match (jGet fields "tool_score").bind validScore with
        | none => none
        | some t =>
          match (jGet fields "overall").bind validScore with
          | none => none
          | some o =>
            match jGet fields "rationale" with
            | some (Json.str r) =>
              some { writing_score := w, coding_score := c, tool_score := t,
                     overall := o, rationale := r }
            | _ => none
  | _ => none

/-- `parse_judge_json` from `app/runs/judge.py`: parse the stripped text when
it is brace-delimited, else recover the first-to-last brace span; validate
either way.  `none` models every exception the caller catches
(`JSONDecodeError`, `ValidationError`). -/
def parse_judge_json (loads : String → Option Json) (raw_text : String) :
    Option JudgeScores :=
  let stripped := pyStrip raw_text
  if startsWithChar stripped lbraceChar && endsWithChar stripped rbraceChar then
    (loads stripped).bind judgeValidate
  else
    match extractBraceSpan raw_text with
    | none => none
    | some sub => (loads sub).bind judgeValidate

/-- The zero-score row `judge_run` builds when `parse_judge_json` raises. -/
def zeroJudgeRow : JudgeScores :=
  { writing_score := 0, coding_score := 0, tool_score := 0, overall := 0,
    rationale := "Judge JSON parse failed" }

/-- The per-item `JudgeResult` row persisted by `judge_run`
(`app/api/runs.py`): the parsed payload on success, the zero-score row on
any parse or validation failure. -/
def judge_row (loads : String → Option Json) (raw_text : String) : JudgeScores :=
  match parse_judge_json loads raw_text with
  | some parsed => parsed
  | none => zeroJudgeRow

/-! ### C2 — telemetry sequence numbers (`app/runs/telemetry.py`,
`emit_event`) -/

/-- A `TelemetryEvent` row (`app/db/models.py`), restricted to the columns
the sequencing logic reads and writes. -/
structure TelemetryEvent where
  run_id : Int
  run_item_id : Option Int
  seq_no : Int
  event_type : String
deriving DecidableEq, Repr

/-- The `seq_no` column of the rows of one run, in table (append) order:
`SELECT seq_no FROM telemetry_events WHERE run_id = R`. -/
def seqs_for (events : List TelemetryEvent) (R : Int) : List Int :=
  (events.filter (fun e => e.run_id = R)).map (fun e => e.seq_no)

/-- SQL `max(...)` with Python `or 0` on the result: `NULL` (no rows) and a
maximum of 0 both give 0. -/
def pyMaxOrZero (l : List Int) : Int :=
  match l with
  | [] => 0
  | s :: rest => rest.foldl max s

/-- `select(func.max(TelemetryEvent.seq_no)).where(run_id == run_id)` with
`or 0`, from `emit_event`. -/
def max_seq_for (events : List TelemetryEvent) (run_id : Int) : Int :=
  pyMaxOrZero (seqs_for events run_id)

/-- `emit_event` from `app/runs/telemetry.py`: compute the run's current
maximum `seq_no` (0 when none), insert a new row with `seq_no = max + 1`,
and return it.  The database table is modelled as a list in append order. -/
def emit_event (events : List TelemetryEvent) (run_id : Int) (event_type : String)
    (run_item_id : Option Int) : List TelemetryEvent × TelemetryEvent :=
  let event : TelemetryEvent :=
    { run_id := run_id
      run_item_id := run_item_id
      seq_no := max_seq_for events run_id + 1
      event_type := event_type }
  (events ++ [event], event)

/-- One call to `emit_event` (its arguments). -/
structure EmitCall where
  run_id : Int
  event_type : String
  run_item_id : Option Int

/-- Apply one emit call to the event table. -/
def emit_step (evs : List TelemetryEvent) (c : EmitCall) : List TelemetryEvent :=
  (emit_event evs c.run_id c.event_type c.run_item_id).1

/-- Run a whole sequence of emit calls against an initially empty table. -/
def run_script (script : List EmitCall) : List TelemetryEvent :=
  script.foldl emit_step []

/-- The list `[1, 2, ..., N]` as integers. -/
def seqRange (N : Nat) : List Int :=
  (List.range N).map (fun n => Int.ofNat n + 1)

/-- Invariant: for each run, the seq numbers of its events are exactly
`1..N` in order. -/
def SeqInv (evs : List TelemetryEvent) : Prop :=
  ∀ R, seqs_for evs R = seqRange (seqs_for evs R).length

/-! ### C8 — OpenAI-compatible tool-call fragment assembly
(`app/providers/adapters.py`, `_generate_openai_compat`) -/

/-- One element of `choices[0].delta.tool_calls` in one stream chunk: its
`index` (`tc.get("index", 0)`), `id`, `function.name` and
`function.arguments`, each possibly absent. -/
structure ToolCallDelta where
  index : Option Nat
  id : Option String
  name : Option String
  arguments : Option String
deriving DecidableEq, Repr

/-- One entry of `tool_fragments`: the accumulated id, name and concatenated
arguments for one index. -/
structure ToolFragment where
  id : String
  name : String
  arguments : String
deriving DecidableEq, Repr, Inhabited

/-- The `defaultdict` default: `{"id": "", "name": "", "arguments": ""}`. -/
def defaultFragment : ToolFragment := { id := "", name := "", arguments := "" }

/-- Python `new or old` on strings with `new` possibly `None`: keep `old`
unless `new` is a non-empty string. -/
def pyOrStr (newv : Option String) (old : String) : String :=
  match newv with
  | none => old
  | some s => if s = "" then old else s

/-- The loop body for one `tc` in `delta.tool_calls`:
`fragment["id"] = tc.get("id") or fragment["id"]`,
`fragment["name"] = func.get("name") or fragment["name"]`,
`fragment["arguments"] += func.get("arguments") or ""`.  The
insertion-ordered `defaultdict` keyed by index is modelled as an association
list in first-insertion order. -/
def updateFragments (frags : List (Nat × ToolFragment)) (tc : ToolCallDelta) :
    List (Nat × ToolFragment) :=
  let idx := tc.index.getD 0
  let current := (frags.lookup idx).getD defaultFragment
  let updated : ToolFragment :=
    { id := pyOrStr tc.id current.id
      name := pyOrStr tc.name current.name
      arguments := current.arguments ++ (tc.arguments.getD "") }
  match frags.lookup idx with
  | some _ => frags.map (fun p => if p.1 = idx then (idx, updated) else p)
  | none => frags ++ [(idx, updated)]

/-- The whole streaming loop over every `tool_calls` delta, in arrival
order. -/
def assembleFragments (deltas : List ToolCallDelta) : List (Nat × ToolFragment) :=
  deltas.foldl updateFragments []

/-- One entry of the final `tool_calls` list. -/
structure FinalToolCall where
  id : String
  name : String
  arguments : Json

/-- `json.loads(fragment["arguments"] or "{}")` with
`{"raw": fragment["arguments"]}` on `JSONDecodeError`. -/
def parseArgsOrRaw (loads : String → Option Json) (arguments : String) : Json :=
  match loads (if arguments = "" then emptyObjText else arguments) with
  | some j => j
  | none => Json.obj [("raw", Json.str arguments)]

/-- One iteration of the post-stream loop of `_generate_openai_compat`:
skip fragments without a name, parse the concatenated arguments, and
synthesize `call_<len(tool_calls)+1>` when the provider supplied no id. -/
def finalizeStep (loads : String → Option Json) (acc : List FinalToolCall)
    (kf : Nat × ToolFragment) : List FinalToolCall :=
  let fragment := kf.2
  if fragment.name = "" then acc
  else
    acc ++ [{ id := if fragment.id = "" then "call_" ++ toString (acc.length + 1)
                    else fragment.id
              name := fragment.name
              arguments := parseArgsOrRaw loads fragment.arguments }]

/-- The post-stream loop of `_generate_openai_compat` over all fragments in
first-insertion order (`tool_fragments.values()`). -/
def finalizeToolCalls (loads : String → Option Json)
    (frags : List (Nat × ToolFragment)) : List FinalToolCall :=
  frags.foldl (finalizeStep loads) []

/-- The full tool-call pipeline of `_generate_openai_compat`. -/
def openaiToolCalls (loads : String → Option Json) (deltas : List ToolCallDelta) :
    List FinalToolCall :=
  finalizeToolCalls loads (assembleFragments deltas)

/-- Per-index accumulation step, stated directly on a fragment (the
specification-side view of the loop body). -/
def specUpdate (f : ToolFragment) (tc : ToolCallDelta) : ToolFragment :=
  { id := pyOrStr tc.id f.id
    name := pyOrStr tc.name f.name
    arguments := f.arguments ++ (tc.arguments.getD "") }

/-- The deltas addressed to index `i`, in arrival order. -/
def deltasAt (deltas : List ToolCallDelta) (i : Nat) : List ToolCallDelta :=
  deltas.filter (fun tc => tc.index.getD 0 = i)

/-- The last non-empty value of a sequence of optional strings (empty when
none is provided). -/
def lastProvided (vals : List (Option String)) : String :=
  vals.foldl (fun acc v => pyOrStr v acc) ""

/-- The concatenation of a sequence of optional strings (absent values count
as empty). -/
def joinedArgs (vals : List (Option String)) : String :=
  vals.foldl (fun acc v => acc ++ v.getD "") ""

/-! ## Theorems -/

theorem seqs_for_append (evs : List TelemetryEvent) (e : TelemetryEvent) (R : Int) :
    seqs_for (evs ++ [e]) R =
      seqs_for evs R ++ (if e.run_id = R then [e.seq_no] else []) := by
  by_cases h : e.run_id = R <;>
    simp [seqs_for, List.filter_append, h]

theorem pyMaxOrZero_append (l : List Int) (x : Int) (h : l ≠ []) :
    pyMaxOrZero (l ++ [x]) = max (pyMaxOrZero l) x := by
  cases l with
  | nil => exact absurd rfl h
  | cons s rest => simp [pyMaxOrZero, List.foldl_append]

theorem seqRange_succ (N : Nat) :
    seqRange (N + 1) = seqRange N ++ [Int.ofNat N + 1] := by
  rw [seqRange, List.range_succ, List.map_append]
  rfl

theorem seqRange_length (N : Nat) : (seqRange N).length = N := by
  simp [seqRange]

theorem seqRange_ne_nil (N : Nat) (h : N ≠ 0) : seqRange N ≠ [] := by
  cases N with
  | zero => exact absurd rfl h
  | succ k =>
    rw [seqRange_succ]
    simp

theorem pyMaxOrZero_range_map (N : Nat) :
    pyMaxOrZero (seqRange N) = N := by
  induction N with
  | zero => rfl
  | succ k ih =>
    rw [seqRange_succ]
    by_cases hk : k = 0
    · subst hk
      simp [seqRange, pyMaxOrZero]
    · rw [pyMaxOrZero_append _ _ (seqRange_ne_nil k hk), ih]
      rw [Int.ofNat_eq_natCast]
      push_cast
      omega

theorem emit_step_preserves (evs : List TelemetryEvent) (c : EmitCall)
    (h : SeqInv evs) : SeqInv (emit_step evs c) := by
  intro R
  have happ :
      seqs_for (emit_step evs c) R =
        seqs_for evs R ++
          (if c.run_id = R then [max_seq_for evs c.run_id + 1] else []) := by
    simp only [emit_step, emit_event]
    exact seqs_for_append evs _ R
  by_cases hR : c.run_id = R
  · rw [happ, if_pos hR, hR]
    have hN := h R
    have hmax : max_seq_for evs R = Int.ofNat (seqs_for evs R).length := by
      rw [max_seq_for]
      conv_lhs => rw [hN]
      exact pyMaxOrZero_range_map _
    rw [hmax]
    have hlen : (seqs_for evs R ++ [Int.ofNat (seqs_for evs R).length + 1]).length =
        (seqs_for evs R).length + 1 := by simp
    rw [hlen, seqRange_succ]
    conv_lhs => rw [hN]
    rw [seqRange_length]
  · rw [happ, if_neg hR]
    simpa using h R

theorem foldl_emit_preserves (script : List EmitCall) (evs : List TelemetryEvent)
    (h : SeqInv evs) : SeqInv (script.foldl emit_step evs) := by
  induction script generalizing evs with
  | nil => exact h
  | cons c rest ih => exact ih _ (emit_step_preserves _ _ h)

theorem seqs_len_foldl (script : List EmitCall) (evs : List TelemetryEvent) (R : Int) :
    (seqs_for (script.foldl emit_step evs) R).length =
      (seqs_for evs R).length + (script.filter (fun c => c.run_id = R)).length := by
  induction script generalizing evs with
  | nil => simp
  | cons c rest ih =>
    rw [List.foldl_cons, ih]
    have hstep : (seqs_for (emit_step evs c) R).length =
        (seqs_for evs R).length + (if c.run_id = R then 1 else 0) := by
      simp only [emit_step, emit_event]
      rw [seqs_for_append]
      by_cases hR : c.run_id = R <;> simp [hR]
    rw [hstep]
    by_cases hR : c.run_id = R <;> (simp [hR, List.filter_cons]; try omega)

/-- C2: starting from an empty table, after any sequence of `emit_event`
calls the seq numbers of each run `R` are exactly `1..N` in append order
(strictly increasing, no gaps), where `N` is the number of events emitted
for `R`; each append assigns `max + 1` with the max defaulting to 0, so the
first event of a run gets 1. -/
theorem telemetry_seq_nos (script : List EmitCall) (R : Int) :
    seqs_for (run_script script) R =
      seqRange ((script.filter (fun c => c.run_id = R)).length) := by
  have hinv : SeqInv (run_script script) :=
    foldl_emit_preserves script [] (by intro R2; rfl)
  have hlen : (seqs_for (run_script script) R).length =
      (script.filter (fun c => c.run_id = R)).length := by
    have h := seqs_len_foldl script [] R
    simpa [run_script, seqs_for] using h
  have h := hinv R
  rw [hlen] at h
  exact h

theorem constraintRow_type (regexSearch : String → String → Bool) (o : String)
    (ce : String × String) : (constraintRow regexSearch o ce).type = ce.1 := by
  simp only [constraintRow]
  split_ifs <;> rfl

/-- C7: the evaluator's `total` equals the number of parseable chunks,
`passed` never exceeds `total`, and every row whose check name is not one of
contains/icontains/not_contains/regex/max_words is failed with detail
`"unsupported check: <name>"`. -/
theorem evaluate_expected_constraints_spec (regexSearch : String → String → Bool)
    (raw_constraints : Option String) (output_text : String) :
    (evaluate_expected_constraints regexSearch raw_constraints output_text).total =
      (_parse_constraints raw_constraints).length ∧
    (evaluate_expected_constraints regexSearch raw_constraints output_text).passed ≤
      (evaluate_expected_constraints regexSearch raw_constraints output_text).total ∧
    ∀ row ∈ (evaluate_expected_constraints regexSearch raw_constraints output_text).results,
      row.type ∉ (["contains", "icontains", "not_contains", "regex", "max_words"] : List String) →
        row.passed = false ∧ row.detail = "unsupported check: " ++ row.type := by
  by_cases h : (_parse_constraints raw_constraints).isEmpty
  · have hnil : _parse_constraints raw_constraints = [] := List.isEmpty_iff.mp h
    refine ⟨?_, ?_, ?_⟩
    · simp [evaluate_expected_constraints, h, hnil]
    · simp [evaluate_expected_constraints, h]
    · intro row hrow
      simp [evaluate_expected_constraints, h] at hrow
  · refine ⟨?_, ?_, ?_⟩
    · simp [evaluate_expected_constraints, h]
    · simp only [evaluate_expected_constraints, if_neg h]
      exact List.length_filter_le _ _
    · intro row hrow hne
      simp only [evaluate_expected_constraints, if_neg h] at hrow
      obtain ⟨ce, _hce, heq⟩ := List.mem_map.mp hrow
      have htype : row.type = ce.1 := by rw [← heq]; exact constraintRow_type _ _ _
      rw [htype] at hne
      simp only [List.mem_cons, List.not_mem_nil, or_false, not_or] at hne
      obtain ⟨h1, h2, h3, h4, h5⟩ := hne
      rw [← heq]
      simp [constraintRow, h1, h2, h3, h4, h5]

/-- Witness for C7 at a concrete input: one unknown check `foo:bar` yields
`passed ≤ total` and a failed row with the unsupported-check detail. -/
theorem evaluate_expected_constraints_spec_witness :
    ((evaluate_expected_constraints (fun _ _ => false) (some "foo:bar") "x").passed ≤
      (evaluate_expected_constraints (fun _ _ => false) (some "foo:bar") "x").total) ∧
    ((((evaluate_expected_constraints (fun _ _ => false) (some "foo:bar") "x").results.headD
        default).passed = false) ∧
      (((evaluate_expected_constraints (fun _ _ => false) (some "foo:bar") "x").results.headD
        default).detail = "unsupported check: " ++
        (((evaluate_expected_constraints (fun _ _ => false) (some "foo:bar") "x").results.headD
          default).type))) :=
  ⟨(evaluate_expected_constraints_spec (fun _ _ => false) (some "foo:bar") "x").2.1,
   (evaluate_expected_constraints_spec (fun _ _ => false) (some "foo:bar") "x").2.2
     _ (by decide) (by decide)⟩

theorem applyBin_ok_or_arith (op : PyBinOp) (hop : isAllowedBin op = true) (l r : ℚ) :
    (∃ v, applyBin op l r = Except.ok v) ∨
    (∃ m, arithErrMsg m ∧ applyBin op l r = Except.error m) := by
  cases op with
  | add => exact Or.inl ⟨l + r, rfl⟩
  | sub => exact Or.inl ⟨l - r, rfl⟩
  | mult => exact Or.inl ⟨l * r, rfl⟩
  | div =>
    by_cases hr : r = 0
    · exact Or.inr ⟨"float division by zero", Or.inl rfl, by simp [applyBin, hr]⟩
    · exact Or.inl ⟨l / r, by simp [applyBin, hr]⟩
  | pow =>
    simp only [applyBin, pyPow]
    split_ifs with h1 h2 h3
    · exact Or.inr ⟨"0.0 cannot be raised to a negative power", Or.inr (Or.inr (Or.inl rfl)), rfl⟩
    · exact Or.inl ⟨l ^ r.num, rfl⟩
    · exact Or.inr ⟨complexConvertMsg, Or.inr (Or.inr (Or.inr rfl)), rfl⟩
    · exact Or.inl ⟨0, rfl⟩
  | mod =>
    by_cases hr : r = 0
    · exact Or.inr ⟨"float modulo", Or.inr (Or.inl rfl), by simp [applyBin, hr]⟩
    · exact Or.inl ⟨l - r * (⌊l / r⌋ : ℚ), by simp [applyBin, hr]⟩
  | otherBin => exact absurd hop (by simp [isAllowedBin])

theorem safe_eval_shape (e : PyExpr) :
    (numericForm e = true →
      (∃ v, _safe_eval e = Except.ok v) ∨
      (∃ m, arithErrMsg m ∧ _safe_eval e = Except.error m)) ∧
    (numericForm e = false →
      _safe_eval e = Except.error "Unsupported expression" ∨
      (∃ m, arithErrMsg m ∧ _safe_eval e = Except.error m)) := by
  induction e with
  | num v =>
    exact ⟨fun _ => Or.inl ⟨v, rfl⟩, fun h => by simp [numericForm] at h⟩
  | boolLit b =>
    exact ⟨fun _ => Or.inl ⟨if b then 1 else 0, rfl⟩, fun h => by simp [numericForm] at h⟩
  | constOther =>
    exact ⟨fun h => by simp [numericForm] at h, fun _ => Or.inl rfl⟩
  | binOp op l r ihl ihr =>
    constructor
    · intro h
      simp only [numericForm, Bool.and_eq_true] at h
      obtain ⟨hop, hl, hr⟩ := h
      simp only [_safe_eval, if_pos hop]
      rcases ihl.1 hl with ⟨lv, hlv⟩ | ⟨m, hm, hlv⟩
      · rw [hlv]
        rcases ihr.1 hr with ⟨rv, hrv⟩ | ⟨m, hm, hrv⟩
        · rw [hrv]
          exact applyBin_ok_or_arith op hop lv rv
        · rw [hrv]
          exact Or.inr ⟨m, hm, rfl⟩
      · rw [hlv]
        exact Or.inr ⟨m, hm, rfl⟩
    · intro h
      by_cases hop : isAllowedBin op = true
      · simp only [_safe_eval, if_pos hop]
        simp only [numericForm, hop, Bool.true_and, Bool.and_eq_false_iff] at h
        rcases h with hl | hr
        · rcases ihl.2 hl with hlv | ⟨m, hm, hlv⟩
          · rw [hlv]
            exact Or.inl rfl
          · rw [hlv]
            exact Or.inr ⟨m, hm, rfl⟩
        · by_cases hl : numericForm l = true
          · rcases ihl.1 hl with ⟨lv, hlv⟩ | ⟨m, hm, hlv⟩
            · rw [hlv]
              rcases ihr.2 hr with hrv | ⟨m, hm, hrv⟩
              · rw [hrv]
                exact Or.inl rfl
              · rw [hrv]
                exact Or.inr ⟨m, hm, rfl⟩
            · rw [hlv]
              exact Or.inr ⟨m, hm, rfl⟩
          · rcases ihl.2 (by simpa using hl) with hlv | ⟨m, hm, hlv⟩
            · rw [hlv]
              exact Or.inl rfl
            · rw [hlv]
              exact Or.inr ⟨m, hm, rfl⟩
      · simp only [_safe_eval, if_neg hop]
        exact Or.inl trivial
  | unaryOp op e ih =>
    constructor
    · intro h
      simp only [numericForm, Bool.and_eq_true] at h
      obtain ⟨hop, he⟩ := h
      simp only [_safe_eval, if_pos hop]
      rcases ih.1 he with ⟨v, hv⟩ | ⟨m, hm, hv⟩
      · rw [hv]
        exact Or.inl ⟨applyUnary op v, rfl⟩
      · rw [hv]
        exact Or.inr ⟨m, hm, rfl⟩
    · intro h
      by_cases hop : isAllowedUnary op = true
      · simp only [_safe_eval, if_pos hop]
        simp only [numericForm, hop, Bool.true_and] at h
        rcases ih.2 h with hv | ⟨m, hm, hv⟩
        · rw [hv]
          exact Or.inl rfl
        · rw [hv]
          exact Or.inr ⟨m, hm, rfl⟩
      · simp only [_safe_eval, if_neg hop]
        exact Or.inl trivial
  | otherNode =>
    exact ⟨fun h => by simp [numericForm] at h, fun _ => Or.inl rfl⟩

/-- C5 counterexample: on a non-numeric syntactic form (e.g. the expression
`"x"`, a Name node) the calculator raises `ToolExecutionError` whose message
is `"calculator failed: Unsupported expression"` — the inner
`"Unsupported expression"` wrapped by `calculator`'s except clause — not
`"Unsupported expression"` as the claim states. -/
theorem calculator_message_counterexample :
    calculator (Except.ok PyExpr.otherNode) =
      Except.error "calculator failed: Unsupported expression" ∧
    "calculator failed: Unsupported expression" ≠ "Unsupported expression" :=
  ⟨rfl, by decide⟩

/-- C5 (amended): expressions built only from numeric literals (booleans
included, since Python `bool` is an `int` subclass), unary `+`/`-`, and the
binary operators `+ - * / % **` either return their numeric value or raise a
wrapped runtime arithmetic error (division or modulo by zero, zero to a
negative power, complex power result); every other syntactic form fails with
`ToolExecutionError` whose message is
`"calculator failed: Unsupported expression"`, unless evaluation hits one of
those arithmetic errors first. -/
theorem calculator_amended (e : PyExpr) :
    (numericForm e = true →
      (∃ v, calculator (Except.ok e) = Except.ok v) ∨
      (∃ m, arithErrMsg m ∧
        calculator (Except.ok e) = Except.error ("calculator failed: " ++ m))) ∧
    (numericForm e = false →
      calculator (Except.ok e) = Except.error "calculator failed: Unsupported expression" ∨
      (∃ m, arithErrMsg m ∧
        calculator (Except.ok e) = Except.error ("calculator failed: " ++ m))) := by
  have h := safe_eval_shape e
  constructor
  · intro hn
    rcases h.1 hn with ⟨v, hv⟩ | ⟨m, hm, hv⟩
    · exact Or.inl ⟨v, by simp [calculator, hv]⟩
    · exact Or.inr ⟨m, hm, by simp [calculator, hv]⟩
  · intro hn
    rcases h.2 hn with hv | ⟨m, hm, hv⟩
    · exact Or.inl (by simp [calculator, hv])
    · exact Or.inr ⟨m, hm, by simp [calculator, hv]⟩

/-- Witness for C5 at concrete inputs: `1 + 2` is a numeric form and
evaluates successfully; `1 / 0` surfaces a wrapped arithmetic error. -/
theorem calculator_amended_witness :
    numericForm (PyExpr.binOp PyBinOp.add (PyExpr.num 1) (PyExpr.num 2)) = true ∧
    ((∃ v, calculator (Except.ok (PyExpr.binOp PyBinOp.add (PyExpr.num 1) (PyExpr.num 2))) =
        Except.ok v) ∨
      (∃ m, arithErrMsg m ∧
        calculator (Except.ok (PyExpr.binOp PyBinOp.add (PyExpr.num 1) (PyExpr.num 2))) =
          Except.error ("calculator failed: " ++ m))) ∧
    (calculator (Except.ok PyExpr.otherNode) =
        Except.error "calculator failed: Unsupported expression" ∨
      (∃ m, arithErrMsg m ∧ calculator (Except.ok PyExpr.otherNode) =
        Except.error ("calculator failed: " ++ m))) :=
  ⟨rfl, (calculator_amended _).1 rfl, (calculator_amended PyExpr.otherNode).2 rfl⟩

theorem fallbackFinalize_shape (fs : List (String × Json)) :
    fallbackFinalize fs = none ∨
    ∃ (n : String) (a : List (String × Json)),
      fallbackFinalize fs =
        some (Json.obj [("name", Json.str n), ("arguments", Json.obj a)]) := by
  unfold fallbackFinalize
  rcases jGet fs "tool" with _ | j
  · exact Or.inl rfl
  · cases j with
    | null => exact Or.inl rfl
    | bool b => exact Or.inl rfl
    | num v => exact Or.inl rfl
    | str t =>
      rcases (jGet fs "args").getD (Json.obj []) with _ | b | v | s | items | fields
      · exact Or.inl rfl
      · exact Or.inl rfl
      · exact Or.inl rfl
      · exact Or.inl rfl
      · exact Or.inl rfl
      · exact Or.inr ⟨t, fields, rfl⟩
    | arr items => exact Or.inl rfl
    | obj fields => exact Or.inl rfl

/-- C10: for every `json.loads` behavior and every input string,
`parse_fallback_tool_command` (which is total: the source catches every
exception it can raise) returns nothing or a record whose `name` is a string
and whose `arguments` is a JSON object; and whenever the extracted payload
has a non-string `tool` or a non-object `args`, it returns nothing. -/
theorem parse_fallback_tool_command_safe (loads : String → Option Json) (text : String) :
    (parse_fallback_tool_command loads text = none ∨
      ∃ (n : String) (a : List (String × Json)),
        parse_fallback_tool_command loads text =
          some (Json.obj [("name", Json.str n), ("arguments", Json.obj a)])) ∧
    (∀ fs, fallback_payload loads text = some fs →
      ((∀ t, jGet fs "tool" ≠ some (Json.str t)) ∨
        (∀ a, (jGet fs "args").getD (Json.obj []) ≠ Json.obj a)) →
      parse_fallback_tool_command loads text = none) := by
  constructor
  · unfold parse_fallback_tool_command
    rcases fallback_payload loads text with _ | fs
    · exact Or.inl rfl
    · simpa using fallbackFinalize_shape fs
  · intro fs hp hbad
    unfold parse_fallback_tool_command
    rw [hp]
    show fallbackFinalize fs = none
    unfold fallbackFinalize
    rcases ht : jGet fs "tool" with _ | j
    · rfl
    · cases j with
      | null => rfl
      | bool b => rfl
      | num v => rfl
      | str t =>
        rcases hbad with hbad | hbad
        · exact absurd ht (hbad t)
        · rcases ha : (jGet fs "args").getD (Json.obj []) with _ | b | v | s | items | fields
          · rfl
          · rfl
          · rfl
          · rfl
          · rfl
          · exact absurd ha (hbad fields)
      | arr items => rfl
      | obj fields2 => rfl

/-- Witness for C10 at a concrete input: the text `"{}"` with a `loads` that
yields a dict whose `tool` is the number 3 produces nothing. -/
theorem parse_fallback_tool_command_safe_witness :
    fallback_payload (fun _ => some (Json.obj [("tool", Json.num 3)])) emptyObjText =
      some [("tool", Json.num 3)] ∧
    parse_fallback_tool_command (fun _ => some (Json.obj [("tool", Json.num 3)]))
      emptyObjText = none :=
  ⟨rfl,
   (parse_fallback_tool_command_safe (fun _ => some (Json.obj [("tool", Json.num 3)]))
       emptyObjText).2 [("tool", Json.num 3)] rfl
     (Or.inl (fun t h => by simp [jGet] at h))⟩

theorem validScore_range (j : Json) (v : ℚ) (h : validScore j = some v) :
    0 ≤ v ∧ v ≤ 10 := by
  cases j with
  | num w =>
    simp only [validScore] at h
    split_ifs at h with hc
    rw [Option.some.injEq] at h
    subst h
    exact hc
  | null => exact Option.noConfusion h
  | bool b => exact Option.noConfusion h
  | str s => exact Option.noConfusion h
  | arr items => exact Option.noConfusion h
  | obj fields => exact Option.noConfusion h

theorem judgeValidate_range (j : Json) (p : JudgeScores) (h : judgeValidate j = some p) :
    (0 ≤ p.writing_score ∧ p.writing_score ≤ 10) ∧
    (0 ≤ p.coding_score ∧ p.coding_score ≤ 10) ∧
    (0 ≤ p.tool_score ∧ p.tool_score ≤ 10) ∧
    (0 ≤ p.overall ∧ p.overall ≤ 10) := by
  cases j with
  | obj fields =>
    simp only [judgeValidate] at h
    cases hw0 : (jGet fields "writing_score").bind validScore with
    | none => rw [hw0] at h; exact Option.noConfusion h
    | some w =>
    rw [hw0] at h
    cases hc0 : (jGet fields "coding_score").bind validScore with
    | none => rw [hc0] at h; exact Option.noConfusion h
    | some c =>
    rw [hc0] at h
    cases ht0 : (jGet fields "tool_score").bind validScore with
    | none => rw [ht0] at h; exact Option.noConfusion h
    | some t =>
    rw [ht0] at h
    cases ho0 : (jGet fields "overall").bind validScore with
    | none => rw [ho0] at h; exact Option.noConfusion h
    | some o =>
    rw [ho0] at h
    obtain ⟨jw, _, hvw⟩ := Option.bind_eq_some.mp hw0
    obtain ⟨jc, _, hvc⟩ := Option.bind_eq_some.mp hc0
    obtain ⟨jt, _, hvt⟩ := Option.bind_eq_some.mp ht0
    obtain ⟨jo, _, hvo⟩ := Option.bind_eq_some.mp ho0
    cases hr0 : jGet fields "rationale" with
    | none => rw [hr0] at h; exact Option.noConfusion h
    | some jr =>
    rw [hr0] at h
    cases jr with
    | str r =>
      rw [Option.some.injEq] at h
      subst h
      exact ⟨validScore_range jw w hvw, validScore_range jc c hvc,
        validScore_range jt t hvt, validScore_range jo o hvo⟩
    | null => exact Option.noConfusion h
    | bool b => exact Option.noConfusion h
    | num v => exact Option.noConfusion h
    | arr items => exact Option.noConfusion h
    | obj fields2 => exact Option.noConfusion h
  | null => exact Option.noConfusion h
  | bool b => exact Option.noConfusion h
  | num v => exact Option.noConfusion h
  | str s => exact Option.noConfusion h
  | arr items => exact Option.noConfusion h

theorem parse_judge_json_valid (loads : String → Option Json) (raw : String)
    (p : JudgeScores) (h : parse_judge_json loads raw = some p) :
    ∃ j, judgeValidate j = some p := by
  simp only [parse_judge_json] at h
  cases hb : (startsWithChar (pyStrip raw) lbraceChar && endsWithChar (pyStrip raw) rbraceChar) with
  | true =>
    rw [hb, if_pos rfl] at h
    obtain ⟨j, _, hj⟩ := Option.bind_eq_some.mp h
    exact ⟨j, hj⟩
  | false =>
    rw [hb, if_neg (by decide)] at h
    cases hs : extractBraceSpan raw with
    | none => rw [hs] at h; exact Option.noConfusion h
    | some sub =>
      rw [hs] at h
      obtain ⟨j, _, hj⟩ := Option.bind_eq_some.mp h
      exact ⟨j, hj⟩

/-- C9: for every judge response text the persisted row has all four scores
in `[0, 10]`; a response that parses and validates keeps the model-supplied
values, and any parse or validation failure yields the zero-score row with
rationale `"Judge JSON parse failed"`. -/
theorem judge_row_spec (loads : String → Option Json) (raw : String) :
    (0 ≤ (judge_row loads raw).writing_score ∧ (judge_row loads raw).writing_score ≤ 10) ∧
    (0 ≤ (judge_row loads raw).coding_score ∧ (judge_row loads raw).coding_score ≤ 10) ∧
    (0 ≤ (judge_row loads raw).tool_score ∧ (judge_row loads raw).tool_score ≤ 10) ∧
    (0 ≤ (judge_row loads raw).overall ∧ (judge_row loads raw).overall ≤ 10) ∧
    (∀ p, parse_judge_json loads raw = some p → judge_row loads raw = p) ∧
    (parse_judge_json loads raw = none → judge_row loads raw = zeroJudgeRow) := by
  cases hp : parse_judge_json loads raw with
  | none =>
    have hrow : judge_row loads raw = zeroJudgeRow := by
      unfold judge_row
      rw [hp]
    rw [hrow]
    refine ⟨by norm_num [zeroJudgeRow], by norm_num [zeroJudgeRow],
      by norm_num [zeroJudgeRow], by norm_num [zeroJudgeRow], ?_, fun _ => rfl⟩
    intro p hp2
    exact Option.noConfusion hp2
  | some p =>
    have hrow : judge_row loads raw = p := by
      unfold judge_row
      rw [hp]
    obtain ⟨j, hj⟩ := parse_judge_json_valid loads raw p hp
    have hr := judgeValidate_range j p hj
    rw [hrow]
    refine ⟨hr.1, hr.2.1, hr.2.2.1, hr.2.2.2, ?_, ?_⟩
    · intro q hq
      exact Option.some.inj hq
    · intro hnone
      exact Option.noConfusion hnone

/-- Witness for C9 at a concrete input: a `loads` that always fails yields
the zero-score row, whose overall score is within range. -/
theorem judge_row_spec_witness :
    judge_row (fun _ => none) "x" = zeroJudgeRow ∧
    0 ≤ (judge_row (fun _ => none) "x").overall :=
  ⟨(judge_row_spec (fun _ => none) "x").2.2.2.2.2 rfl,
   ((judge_row_spec (fun _ => none) "x").2.2.2.1).1⟩

theorem lookup_map_replace (l : List (Nat × ToolFragment)) (idx : Nat)
    (u : ToolFragment) (j : Nat) :
    ((l.map (fun p => if p.1 = idx then (idx, u) else p)).lookup j) =
      (if j = idx then
        (match l.lookup idx with
         | some _ => some u
         | none => none)
      else l.lookup j) := by
  induction l with
  | nil =>
    by_cases h : j = idx
    · subst h
      simp [List.lookup]
    · simp [List.lookup, h]
  | cons p rest ih =>
    obtain ⟨k, v⟩ := p
    rw [List.map_cons]
    by_cases hk : k = idx
    · subst hk
      rw [if_pos rfl]
      by_cases hj : j = k
      · subst hj
        simp [List.lookup, ih]
      · have hjk : (j == k) = false := beq_eq_false_iff_ne.mpr hj
        simp [List.lookup, hjk, ih, hj]
    · rw [if_neg hk]
      by_cases hj : j = idx
      · subst hj
        have hjk : (j == k) = false :=
          beq_eq_false_iff_ne.mpr (fun h => hk h.symm)
        simp [List.lookup, hjk, ih]
      · by_cases hjk : j = k
        · subst hjk
          simp [List.lookup, ih, hj]
        · have hjk2 : (j == k) = false := beq_eq_false_iff_ne.mpr hjk
          simp [List.lookup, hjk2, ih, hj]

theorem lookup_append_singleton (l : List (Nat × ToolFragment)) (idx : Nat)
    (u : ToolFragment) (j : Nat) :
    (l ++ [(idx, u)]).lookup j =
      (match l.lookup j with
       | some v => some v
       | none => if j = idx then some u else none) := by
  induction l with
  | nil =>
    by_cases hj : j = idx
    · subst hj
      simp [List.lookup]
    · have hj2 : (j == idx) = false := beq_eq_false_iff_ne.mpr hj
      simp [List.lookup, hj2, hj]
  | cons p rest ih =>
    obtain ⟨k, v⟩ := p
    rw [List.cons_append]
    by_cases hjk : j = k
    · subst hjk
      simp [List.lookup, ih]
    · have hjk2 : (j == k) = false := beq_eq_false_iff_ne.mpr hjk
      simp [List.lookup, hjk2, ih]

theorem lookup_updateFragments (acc : List (Nat × ToolFragment))
    (tc : ToolCallDelta) (i : Nat) :
    (updateFragments acc tc).lookup i =
      (if tc.index.getD 0 = i then
        some (specUpdate ((acc.lookup i).getD defaultFragment) tc)
      else acc.lookup i) := by
  simp only [updateFragments]
  cases hl : acc.lookup (tc.index.getD 0) with
  | some f =>
    rw [lookup_map_replace, hl]
    by_cases hi : tc.index.getD 0 = i
    · subst hi
      simp [hl, specUpdate]
    · have hi2 : ¬(i = tc.index.getD 0) := fun h => hi h.symm
      simp [hi, hi2]
  | none =>
    rw [lookup_append_singleton]
    by_cases hi : tc.index.getD 0 = i
    · subst hi
      rw [hl]
      simp [specUpdate]
    · have hi2 : ¬(i = tc.index.getD 0) := fun h => hi h.symm
      cases hacc : acc.lookup i <;> simp [hi, hi2, hacc]

theorem lookup_foldl_update (deltas : List ToolCallDelta)
    (acc : List (Nat × ToolFragment)) (i : Nat) :
    ((deltas.foldl updateFragments acc).lookup i) =
      (match acc.lookup i with
       | some f => some ((deltasAt deltas i).foldl specUpdate f)
       | none =>
         if deltasAt deltas i = [] then none
         else some ((deltasAt deltas i).foldl specUpdate defaultFragment)) := by
  induction deltas generalizing acc with
  | nil =>
    rw [List.foldl_nil]
    cases acc.lookup i <;> simp [deltasAt]
  | cons tc rest ih =>
    rw [List.foldl_cons, ih, lookup_updateFragments]
    by_cases hi : tc.index.getD 0 = i
    · have hDat : deltasAt (tc :: rest) i = tc :: deltasAt rest i := by
        simp [deltasAt, List.filter_cons, hi]
      rw [if_pos hi, hDat]
      cases hacc : acc.lookup i with
      | some f => simp [List.foldl_cons]
      | none => simp [List.foldl_cons]
    · have hDat : deltasAt (tc :: rest) i = deltasAt rest i := by
        simp [deltasAt, List.filter_cons, hi]
      rw [if_neg hi, hDat]

theorem assembleFragments_lookup (deltas : List ToolCallDelta) (i : Nat) :
    (assembleFragments deltas).lookup i =
      (if deltasAt deltas i = [] then none
       else some ((deltasAt deltas i).foldl specUpdate defaultFragment)) := by
  have h := lookup_foldl_update deltas [] i
  simpa [assembleFragments, List.lookup] using h

theorem foldl_specUpdate_split (l : List ToolCallDelta) (f : ToolFragment) :
    l.foldl specUpdate f =
      { id := (l.map (fun tc => tc.id)).foldl (fun acc v => pyOrStr v acc) f.id
        name := (l.map (fun tc => tc.name)).foldl (fun acc v => pyOrStr v acc) f.name
        arguments := (l.map (fun tc => tc.arguments)).foldl
          (fun acc v => acc ++ v.getD "") f.arguments } := by
  induction l generalizing f with
  | nil => rfl
  | cons tc rest ih =>
    rw [List.foldl_cons, ih]
    rfl

theorem finalize_foldl_mem (loads : String → Option Json)
    (frags : List (Nat × ToolFragment)) (acc : List FinalToolCall)
    (c : FinalToolCall) (hc : c ∈ frags.foldl (finalizeStep loads) acc) :
    c ∈ acc ∨
    ∃ kf ∈ frags, kf.2.name ≠ "" ∧ c.name = kf.2.name ∧
      c.arguments = parseArgsOrRaw loads kf.2.arguments ∧
      (c.id = kf.2.id ∨ (kf.2.id = "" ∧ ∃ n : Nat, c.id = "call_" ++ toString n)) := by
  induction frags generalizing acc with
  | nil => exact Or.inl hc
  | cons kf rest ih =>
    rw [List.foldl_cons] at hc
    rcases ih (finalizeStep loads acc kf) hc with hmem | ⟨kf2, hkf2, hprop⟩
    · by_cases hname : kf.2.name = ""
      · rw [finalizeStep, if_pos hname] at hmem
        exact Or.inl hmem
      · rw [finalizeStep, if_neg hname] at hmem
        rcases List.mem_append.mp hmem with hmem2 | hmem2
        · exact Or.inl hmem2
        · have hceq := List.mem_singleton.mp hmem2
          subst hceq
          refine Or.inr ⟨kf, List.mem_cons_self kf rest, hname, rfl, rfl, ?_⟩
          by_cases hid : kf.2.id = ""
          · exact Or.inr ⟨hid, acc.length + 1, by rw [if_pos hid]⟩
          · exact Or.inl (by rw [if_neg hid])
    · exact Or.inr ⟨kf2, List.mem_cons_of_mem kf hkf2, hprop⟩

theorem mem_foldl_finalizeStep (loads : String → Option Json)
    (frags : List (Nat × ToolFragment)) (acc : List FinalToolCall)
    (c : FinalToolCall) (hc : c ∈ acc) :
    c ∈ frags.foldl (finalizeStep loads) acc := by
  induction frags generalizing acc with
  | nil => exact hc
  | cons kf rest ih =>
    rw [List.foldl_cons]
    apply ih
    by_cases hname : kf.2.name = ""
    · simpa [finalizeStep, hname] using hc
    · simp only [finalizeStep, if_neg hname]
      exact List.mem_append_left _ hc

theorem finalize_foldl_mem_forward (loads : String → Option Json)
    (frags : List (Nat × ToolFragment)) (acc : List FinalToolCall)
    (kf : Nat × ToolFragment) (hkf : kf ∈ frags) (hname : kf.2.name ≠ "") :
    ∃ c ∈ frags.foldl (finalizeStep loads) acc,
      c.name = kf.2.name ∧ c.arguments = parseArgsOrRaw loads kf.2.arguments ∧
      (c.id = kf.2.id ∨ (kf.2.id = "" ∧ ∃ n : Nat, c.id = "call_" ++ toString n)) := by
  induction frags generalizing acc with
  | nil => exact absurd hkf (List.not_mem_nil kf)
  | cons kf0 rest ih =>
    rw [List.foldl_cons]
    rcases List.mem_cons.mp hkf with heq | hmem
    · subst heq
      refine ⟨{ id := if kf.2.id = "" then "call_" ++ toString (acc.length + 1) else kf.2.id
                name := kf.2.name
                arguments := parseArgsOrRaw loads kf.2.arguments }, ?_, rfl, rfl, ?_⟩
      · apply mem_foldl_finalizeStep
        simp only [finalizeStep, if_neg hname]
        exact List.mem_append_right _ (List.mem_singleton.mpr rfl)
      · by_cases hid : kf.2.id = ""
        · exact Or.inr ⟨hid, acc.length + 1, by rw [if_pos hid]⟩
        · exact Or.inl (by rw [if_neg hid])
    · exact ih (finalizeStep loads acc kf0) hmem

/-- C8 counterexample: the claim says the first non-empty id is kept, but
`fragment["id"] = tc.get("id") or fragment["id"]` keeps the most recent
non-empty value: two deltas at index 0 with ids `"a"` then `"b"` leave the
fragment with id `"b"`, not `"a"`. -/
theorem tool_fragment_last_id_counterexample :
    (assembleFragments
        [{ index := some 0, id := some "a", name := some "f", arguments := some "x" },
         { index := some 0, id := some "b", name := none, arguments := some "y" }]).lookup 0 =
      some { id := "b", name := "f", arguments := "xy" } ∧
    "b" ≠ "a" :=
  ⟨rfl, by decide⟩

/-- C8 (amended): for each index, the assembled fragment keeps the LAST
non-empty id and function.name and concatenates all arguments strings in
arrival order; at stream end, EVERY fragment with a name produces a tool
call whose arguments are the JSON parse of the concatenated string (with
`{raw: <string>}` on parse failure) and whose id is the fragment's id or a
synthesized `call_<n>` when the provider supplied none; and every emitted
tool call conversely comes from such a named fragment. -/
theorem openai_tool_fragments_spec (loads : String → Option Json)
    (deltas : List ToolCallDelta) (i : Nat) :
    ((assembleFragments deltas).lookup i =
      (if deltasAt deltas i = [] then none
       else some { id := lastProvided ((deltasAt deltas i).map (fun tc => tc.id))
                   name := lastProvided ((deltasAt deltas i).map (fun tc => tc.name))
                   arguments :=
                     joinedArgs ((deltasAt deltas i).map (fun tc => tc.arguments)) })) ∧
    (∀ kf ∈ assembleFragments deltas, kf.2.name ≠ "" →
      ∃ c ∈ openaiToolCalls loads deltas,
        c.name = kf.2.name ∧ c.arguments = parseArgsOrRaw loads kf.2.arguments ∧
        (c.id = kf.2.id ∨ (kf.2.id = "" ∧ ∃ n : Nat, c.id = "call_" ++ toString n))) ∧
    (∀ c ∈ openaiToolCalls loads deltas,
      ∃ kf ∈ assembleFragments deltas, kf.2.name ≠ "" ∧ c.name = kf.2.name ∧
        c.arguments = parseArgsOrRaw loads kf.2.arguments ∧
        (c.id = kf.2.id ∨ (kf.2.id = "" ∧ ∃ n : Nat, c.id = "call_" ++ toString n))) := by
  refine ⟨?_, ?_, ?_⟩
  · rw [assembleFragments_lookup]
    by_cases hd : deltasAt deltas i = []
    · simp [hd]
    · rw [if_neg hd, if_neg hd, foldl_specUpdate_split]
      rfl
  · intro kf hkf hname
    exact finalize_foldl_mem_forward loads (assembleFragments deltas) [] kf hkf hname
  · intro c hc
    rcases finalize_foldl_mem loads (assembleFragments deltas) [] c hc with h | h
    · exact absurd h (List.not_mem_nil c)
    · exact h

/-- Witness for C8 at a concrete input: one delta at index 0 with id `"a"`,
name `"f"`, arguments `"x"` assembles into a named fragment, which produces
a tool call with the parsed (here raw-wrapped, since `loads` fails)
arguments and the provider-supplied id. -/
theorem openai_tool_fragments_spec_witness :
    ((0 : Nat), ({ id := "a", name := "f", arguments := "x" } : ToolFragment)) ∈
      assembleFragments
        [{ index := some 0, id := some "a", name := some "f",
           arguments := some "x" : ToolCallDelta }] ∧
    ∃ c ∈ openaiToolCalls (fun _ => none)
        [{ index := some 0, id := some "a", name := some "f",
           arguments := some "x" : ToolCallDelta }],
      c.name = ({ id := "a", name := "f", arguments := "x" } : ToolFragment).name ∧
      c.arguments =
        parseArgsOrRaw (fun _ => none)
          ({ id := "a", name := "f", arguments := "x" } : ToolFragment).arguments ∧
      (c.id = ({ id := "a", name := "f", arguments := "x" } : ToolFragment).id ∨
        (({ id := "a", name := "f", arguments := "x" } : ToolFragment).id = "" ∧
          ∃ n : Nat, c.id = "call_" ++ toString n)) :=
  ⟨List.Mem.head _,
   (openai_tool_fragments_spec (fun _ => none)
        [{ index := some 0, id := some "a", name := some "f", arguments := some "x" }] 0).2.1
     ((0 : Nat), { id := "a", name := "f", arguments := "x" })
     (List.Mem.head _) (by decide)⟩

/-- C1: the claim says `provider_mode` returns `"anthropic"` for ANTHROPIC
and `generate` dispatches to the anthropic adapter; the code has no ANTHROPIC
branch in `provider_mode`, so ANTHROPIC connections are routed to the
OpenAI-compatible adapter and the `"anthropic"` dispatch branch of `generate`
(and `_generate_anthropic` itself) is unreachable.  This theorem evaluates
the code at the failing input. -/
theorem provider_mode_anthropic_routes_openai_compat :
    provider_mode ConnectionType.ANTHROPIC = "openai_compat" ∧
    generateAdapter ConnectionType.ANTHROPIC = "_generate_openai_compat" ∧
    ∀ t : ConnectionType, provider_mode t ≠ "anthropic" := by
  refine ⟨rfl, rfl, ?_⟩
  intro t
  cases t <;> simp [provider_mode]

/-- C3: `_execute_run` finalization sets the run status to FAILED iff there
is at least one item and every item is FAILED; in every other case (zero
items included) it sets COMPLETED; it sets `finished_at` and emits
`run.completed`. -/
theorem finalize_run_spec (items : List RunItemStatus) :
    ((finalize_run items).status = RunStatus.FAILED ↔
      items ≠ [] ∧ ∀ s ∈ items, s = RunItemStatus.FAILED) ∧
    (¬(items ≠ [] ∧ ∀ s ∈ items, s = RunItemStatus.FAILED) →
      (finalize_run items).status = RunStatus.COMPLETED) ∧
    (finalize_run items).finished_at_set = true ∧
    (finalize_run items).emitted_event = "run.completed" := by
  have hfilter : ((items.filter (fun s => s = RunItemStatus.FAILED)).length = items.length ↔
      ∀ s ∈ items, s = RunItemStatus.FAILED) := by
    constructor
    · intro hlen s hs
      by_contra hne
      have hlt : (items.filter (fun s => s = RunItemStatus.FAILED)).length < items.length := by
        apply List.length_filter_lt_length_iff_exists.mpr
        exact ⟨s, hs, by simp [hne]⟩
      omega
    · intro hall
      have : items.filter (fun s => s = RunItemStatus.FAILED) = items := by
        apply List.filter_eq_self.mpr
        intro a ha
        simp [hall a ha]
      rw [this]
  have hlen : (items.length > 0 ↔ items ≠ []) := by
    cases items <;> simp
  constructor
  · constructor
    · intro hstat
      by_contra hneg
      have : (finalize_run items).status = RunStatus.COMPLETED := by
        simp only [finalize_run]
        rw [if_neg]
        intro ⟨h1, h2⟩
        exact hneg ⟨hlen.mp h1, hfilter.mp h2⟩
      rw [this] at hstat
      exact absurd hstat (by decide)
    · intro ⟨hne, hall⟩
      simp only [finalize_run]
      rw [if_pos ⟨hlen.mpr hne, hfilter.mpr hall⟩]
  · refine ⟨?_, rfl, rfl⟩
    intro hneg
    simp only [finalize_run]
    rw [if_neg]
    intro ⟨h1, h2⟩
    exact hneg ⟨hlen.mp h1, hfilter.mp h2⟩

/-- Witness for C3 at concrete inputs: one COMPLETED item yields a COMPLETED
run, and the finalization emits `run.completed`. -/
theorem finalize_run_spec_witness :
    (finalize_run [RunItemStatus.COMPLETED]).status = RunStatus.COMPLETED ∧
    (finalize_run [RunItemStatus.COMPLETED]).emitted_event = "run.completed" :=
  ⟨(finalize_run_spec [RunItemStatus.COMPLETED]).2.1 (by
      intro ⟨_, hall⟩
      have := hall RunItemStatus.COMPLETED (by simp)
      exact absurd this (by decide)),
   (finalize_run_spec [RunItemStatus.COMPLETED]).2.2.2⟩

/-- C4 counterexample: the claim says `generation_ms` equals
`total_latency_ms - ttft_ms` whenever ttft is present, but with
`started=0, finished=10, ttft=20` the code clamps `10 - 20 = -10` to `1`. -/
theorem compute_metrics_generation_counterexample :
    (compute_metrics 0 10 (some 20) "" (some 5) false).generation_ms = some 1 ∧
    (compute_metrics 0 10 (some 20) "" (some 5) false).total_latency_ms = 10 ∧
    (compute_metrics 0 10 (some 20) "" (some 5) false).generation_ms ≠ some (10 - 20) := by
  refine ⟨rfl, rfl, ?_⟩
  decide

/-- C4 (amended): whenever ttft is present, the returned `generation_ms`
equals `max(1, total_latency_ms - ttft_ms)` where
`total_latency_ms = max(0, finished_ms - started_ms)`. -/
theorem compute_metrics_generation_ms (started finished ttft : Int)
    (text : String) (usage : Option Int) (est : Bool) :
    (compute_metrics started finished (some ttft) text usage est).generation_ms =
      some (max 1 (max 0 (finished - started) - ttft)) ∧
    (compute_metrics started finished (some ttft) text usage est).total_latency_ms =
      max 0 (finished - started) := by
  constructor <;> rfl

/-- C6 counterexample: with `after_seq = 1` and `Last-Event-ID = "5"` the
code starts at 1 (the query parameter takes priority), while the claimed
maximum rule would start at 5. -/
theorem stream_cursor_counterexample :
    stream_start_cursor (some 1) (some "5") = 1 ∧
    stream_start_cursor_specWords (some 1) (some "5") = 5 ∧
    stream_start_cursor (some 1) (some "5") ≠
      stream_start_cursor_specWords (some 1) (some "5") := by
  refine ⟨?_, ?_, ?_⟩ <;> decide

/-- C6 (amended): the starting cursor equals `after_seq` when that query
parameter is supplied; otherwise the integer-parsed `Last-Event-ID` header
when it is present, nonempty and parseable; otherwise 0. -/
theorem stream_start_cursor_amended (v : Int) (lei : Option String) (s : String) :
    (stream_start_cursor (some v) lei = v) ∧
    (pyParseInt s = none → stream_start_cursor none (some s) = 0) ∧
    (∀ n : Int, pyParseInt s = some n → stream_start_cursor none (some s) = n) ∧
    (stream_start_cursor none none = 0) := by
  refine ⟨?_, ?_, ?_, rfl⟩
  · simp only [stream_start_cursor, pyOrZero]
    split <;> simp_all
  · intro hnone
    by_cases hs : s = "" <;>
      simp [stream_start_cursor, pyOrZero, hs, hnone]
  · intro n hn
    simp only [stream_start_cursor, pyOrZero]
    have hs : s ≠ "" := by
      intro h
      rw [h] at hn
      have hempty : pyParseInt "" = none := by decide
      rw [hempty] at hn
      exact Option.noConfusion hn
    simp only [if_neg hs, hn, Option.getD_some]
    split <;> simp_all

/-- Witness for C4 at a concrete input (spec example: started=100,
finished=1200, ttft=200 gives total 1100 and generation 900). -/
theorem compute_metrics_generation_ms_witness :
    (compute_metrics 100 1200 (some 200) "hello world from llm" none false).generation_ms =
      some (max 1 (max 0 (1200 - 100) - 200)) ∧
    max 1 (max 0 ((1200 : Int) - 100) - 200) = 900 :=
  ⟨(compute_metrics_generation_ms 100 1200 200 "hello world from llm" none false).1,
   by decide⟩

/-- Witness for C6 at concrete inputs: the query parameter wins, an
unparseable header falls back to 0, and a parseable header is honored. -/
theorem stream_start_cursor_amended_witness :
    stream_start_cursor (some 3) (some "7") = 3 ∧
    stream_start_cursor none (some "junk") = 0 ∧
    stream_start_cursor none (some "7") = 7 :=
  ⟨(stream_start_cursor_amended 3 (some "7") "7").1,
   (stream_start_cursor_amended 0 none "junk").2.1 (by decide),
   (stream_start_cursor_amended 0 none "7").2.2.1 7 (by decide)⟩

end LLMRace
